import Mathlib

/-!
Verification development for the cora-finance-v2 core: the monetary
arithmetic layer (`src/lib/decimal.ts`) and the master-table entity
operations (`src/server/trpc/routers/{categories,currencies,settings,payees,accounts}`
and `src/server/db/schema.ts`).

Modelling conventions:
* Monetary amounts are integer minor units (`ℤ`), matching the code's
  integer-cents contract; the `decimal.js` arbitrary-precision values are
  modelled as exact rationals (`ℚ`).  `Decimal.set` configures 20
  significant digits with `ROUND_HALF_EVEN`; at the magnitudes exercised
  here (≤ 10^12 minor units) the 20-digit window is never exceeded, so
  exact rational arithmetic models the library faithfully.
* `decimal.js` produces `Infinity` / `NaN` on division by zero instead of
  raising; `DecValue` mirrors its value space.  Router mutations are
  `Except String` functions over explicit entity-list states; database
  `uuid` primary keys are modelled as `ℕ` with explicit freshness.
* Timestamp audit columns (`createdAt`, `updatedAt`, `lastUpdated`) carry
  no claim-relevant information and are omitted from the records.
-/

/-- Value space of `decimal.js` results once `toNumber()` is applied to a
rounded-to-integer quantity: a finite integer, `Infinity`, `-Infinity`
or `NaN` (`dividedBy(0)` yields the latter three, never an exception). -/
inductive DecValue where
  | finite : ℤ → DecValue
  | posInf : DecValue
  | negInf : DecValue
  | nan : DecValue
deriving DecidableEq

/-- Round-half-to-even ("banker's rounding") to the nearest integer, the
rounding mode configured globally by `Decimal.set({ rounding:
Decimal.ROUND_HALF_EVEN })` in `src/lib/decimal.ts` line 17. -/
def roundHalfEven (q : ℚ) : ℤ :=
  if q - ⌊q⌋ < 1/2 then ⌊q⌋
  else if 1/2 < q - ⌊q⌋ then ⌊q⌋ + 1
  else if ⌊q⌋ % 2 = 0 then ⌊q⌋ else ⌊q⌋ + 1

/-- `addCurrency` from `src/lib/decimal.ts`: exact integer addition. -/
def addCurrency (a b : ℤ) : ℤ := a + b

/-- `subtractCurrency` from `src/lib/decimal.ts`: exact integer subtraction. -/
def subtractCurrency (a b : ℤ) : ℤ := a - b

/-- `multiplyCurrency` from `src/lib/decimal.ts`:
`new Decimal(amountCents).times(factor).round().toNumber()`. -/
def multiplyCurrency (amountCents : ℤ) (factor : ℚ) : ℤ :=
  roundHalfEven (amountCents * factor)

/-- `calculatePercentage` from `src/lib/decimal.ts`:
`amount.times(percentage.dividedBy(100)).round().toNumber()`. -/
def calculatePercentage (amountCents : ℤ) (percentage : ℚ) : ℤ :=
  roundHalfEven (amountCents * (percentage / 100))

/-- `divideCurrency` from `src/lib/decimal.ts`:
`new Decimal(amountCents).dividedBy(divisor).round().toNumber()`.
`decimal.js` division by zero produces signed `Infinity` (or `NaN` for
`0/0`); no exception is raised anywhere in the function, so the
`Except` error channel is never used. -/
def divideCurrency (amountCents : ℤ) (divisor : ℚ) : Except String DecValue :=
  if divisor = 0 then
    if 0 < amountCents then .ok .posInf
    else if amountCents < 0 then .ok .negInf
    else .ok .nan
  else .ok (.finite (roundHalfEven ((amountCents : ℚ) / divisor)))

/-- Decimal digit character for a value below 10. -/
def digitChar (d : ℕ) : Char := Char.ofNat (48 + d)

/-- Fuelled most-significant-first digit extraction (the fuel argument
makes the recursion structural; `natToDigits` supplies enough fuel). -/
def natToDigitsAux : ℕ → ℕ → List Char → List Char
  | 0, _, acc => acc
  | fuel + 1, n, acc =>
    if n = 0 then acc else natToDigitsAux fuel (n / 10) (digitChar (n % 10) :: acc)

/-- Decimal digit string of a natural number, most significant first. -/
def natToDigits (n : ℕ) : List Char :=
  if n = 0 then ['0'] else natToDigitsAux (n + 1) n []

/-- Insert a `'.'` thousands separator before every group of three
digits, counting from the right (the `pt-PT` grouping convention the
source documents for `Intl.NumberFormat`). -/
def groupDigits : List Char → List Char
  | [] => []
  | c :: rest =>
    c :: (if rest.length % 3 = 0 ∧ rest.length ≠ 0
          then '.' :: groupDigits rest else groupDigits rest)

/-- `formatCurrency` from `src/lib/decimal.ts` at its default arguments
(`currency = 'EUR'`, `locale = 'pt-PT'`): divides the cents by 100 and
renders with `Intl.NumberFormat`.  The `Intl` output is modelled after
the source's own documented examples (`formatCurrency(123456) =
"€1.234,56"`, `formatCurrency(-50000) = "-€500,00"`): `'.'` as
thousands separator, `','` as decimal separator, two fraction digits,
`'€'` symbol and a leading `'-'` sign.  The intermediate `toNumber()`
double conversion is value-preserving at two rendered decimals for the
magnitudes considered. -/
def formatCurrency (cents : ℤ) : String :=
  let m := cents.natAbs
  let ip := m / 100
  let fp := m % 100
  String.mk ((if cents < 0 then ['-'] else []) ++
    '€' :: (groupDigits (natToDigits ip) ++ ',' :: [digitChar (fp / 10), digitChar (fp % 10)]))

/-- Whitespace per the JavaScript regular-expression class `\s`:
ASCII whitespace, no-break space, ogham space mark, the en-quad to
hair-space range U+2000-U+200A, line and paragraph separators, narrow
no-break space, medium mathematical space, ideographic space and the
byte-order mark. -/
def isJsWhitespace (c : Char) : Bool :=
  c == ' ' || c == '\t' || c == '\n' || c == '\r' ||
  c == '\u000B' || c == '\u000C' || c == '\u00A0' || c == '\u1680' ||
  ('\u2000' ≤ c && c ≤ '\u200A') || c == '\u2028' || c == '\u2029' ||
  c == '\u202F' || c == '\u205F' || c == '\u3000' || c == '\uFEFF'

/-- Characters removed by `parseCurrency`'s first replacement,
`value.replace(/[€$£¥\s]/g, '')`. -/
def isStrippedChar (c : Char) : Bool :=
  c == '€' || c == '$' || c == '£' || c == '¥' || isJsWhitespace c

/-- The cleaning pipeline of `parseCurrency` (`src/lib/decimal.ts`
lines 56-59): strip `€$£¥` and whitespace, delete every `'.'`, then
replace every `','` by `'.'`. -/
def cleanCurrency (s : String) : List Char :=
  ((s.data.filter (fun c => !isStrippedChar c)).filter (fun c => c != '.')).map
    (fun c => if c == ',' then '.' else c)

/-- Value of a digit string read most significant first. -/
def digitsVal (cs : List Char) : ℕ :=
  cs.foldl (fun n c => 10 * n + (c.toNat - 48)) 0

/-- The mantissa of the `decimal.js` constructor's decimal regular
expression, `\d+(\.\d*)?|\.\d+`: digits with at most one decimal point
and at least one digit.  The optional exponent suffix is handled by
`isDecimalForm`, and the `Infinity`/`NaN`/radix-prefixed alternatives
by `parseUnsignedDec`. -/
def isDecimalBody (cs : List Char) : Bool :=
  let ds := cs.takeWhile Char.isDigit
  match cs.dropWhile Char.isDigit with
  | [] => !ds.isEmpty
  | '.' :: fs => (!ds.isEmpty || !fs.isEmpty) && fs.all Char.isDigit
  | _ => false

/-- Numeric value of a string satisfying `isDecimalBody`. -/
def decimalBodyVal (cs : List Char) : ℚ :=
  let ds := cs.takeWhile Char.isDigit
  match cs.dropWhile Char.isDigit with
  | '.' :: fs => (digitsVal ds : ℚ) + (digitsVal fs : ℚ) / 10 ^ fs.length
  | _ => (digitsVal ds : ℚ)

/-- A `decimal.js` value as produced by the string constructor: a
finite exact rational, `Infinity`, `-Infinity` or `NaN`. -/
inductive DecNumber where
  | finite : ℚ → DecNumber
  | posInf : DecNumber
  | negInf : DecNumber
  | nan : DecNumber
deriving DecidableEq

/-- `decimal.js` negation (the `x.s = -1` effect of a leading sign):
negates a finite value, flips the infinities, leaves `NaN`. -/
def DecNumber.neg : DecNumber → DecNumber
  | .finite q => .finite (-q)
  | .posInf => .negInf
  | .negInf => .posInf
  | .nan => .nan

/-- `decimal.js` `times(100)`: exact on finite values, preserves the
infinities (100 is positive) and `NaN`. -/
def DecNumber.times100 : DecNumber → DecNumber
  | .finite q => .finite (q * 100)
  | .posInf => .posInf
  | .negInf => .negInf
  | .nan => .nan

/-- Hexadecimal digit per the constructor regular expressions (`/i`
flag: both letter cases). -/
def isHexDigit (c : Char) : Bool :=
  c.isDigit || ('a' ≤ c && c ≤ 'f') || ('A' ≤ c && c ≤ 'F')

/-- Binary digit. -/
def isBinDigit (c : Char) : Bool := c == '0' || c == '1'

/-- Octal digit. -/
def isOctDigit (c : Char) : Bool := '0' ≤ c && c ≤ '7'

/-- Value of a hexadecimal digit character (also correct on the decimal,
binary and octal digit subsets). -/
def hexDigitVal (c : Char) : ℕ :=
  if c.isDigit then c.toNat - 48
  else if 'a' ≤ c && c ≤ 'f' then c.toNat - 87
  else c.toNat - 55

/-- Value of a digit string in base `b` under digit valuation `dv`,
read most significant first. -/
def digitsValBase (b : ℕ) (dv : Char → ℕ) (cs : List Char) : ℕ :=
  cs.foldl (fun n c => b * n + dv c) 0

/-- Mantissa pattern of the constructor regular expressions for a digit
class `isD`: `D+(\.D*)?|\.D+` — digits with at most one point and at
least one digit. -/
def isRadixBody (isD : Char → Bool) (cs : List Char) : Bool :=
  let ds := cs.takeWhile isD
  match cs.dropWhile isD with
  | [] => !ds.isEmpty
  | '.' :: fs => (!ds.isEmpty || !fs.isEmpty) && fs.all isD
  | _ => false

/-- Numeric value of a mantissa satisfying `isRadixBody isD` in base
`b`. -/
def radixBodyVal (isD : Char → Bool) (b : ℕ) (dv : Char → ℕ) (cs : List Char) : ℚ :=
  let ds := cs.takeWhile isD
  match cs.dropWhile isD with
  | '.' :: fs => (digitsValBase b dv ds : ℚ) + (digitsValBase b dv fs : ℚ) / b ^ fs.length
  | _ => (digitsValBase b dv ds : ℚ)

/-- Split a numeral at its first exponent marker (`e`/`E` for decimal,
`p`/`P` for radix forms): the mantissa and, when a marker occurs, the
characters after it. -/
def splitOnExp (e1 e2 : Char) (cs : List Char) : List Char × Option (List Char) :=
  (cs.takeWhile (fun c => !(c == e1 || c == e2)),
   match cs.dropWhile (fun c => !(c == e1 || c == e2)) with
   | [] => none
   | _ :: rest => some rest)

/-- An exponent body with its optional sign removed. -/
def signedDigits (cs : List Char) : List Char :=
  match cs with
  | '-' :: ds => ds
  | '+' :: ds => ds
  | ds => ds

/-- Whether an exponent body carries a minus sign. -/
def signedDigitsNeg (cs : List Char) : Bool :=
  match cs with
  | '-' :: _ => true
  | _ => false

/-- The `[+-]?\d+` pattern of the exponent suffixes. -/
def isSignedDigits (cs : List Char) : Bool :=
  !(signedDigits cs).isEmpty && (signedDigits cs).all Char.isDigit

/-- Integer value of an exponent body. -/
def signedDigitsVal (cs : List Char) : ℤ :=
  if signedDigitsNeg cs then -(digitsVal (signedDigits cs) : ℤ)
  else (digitsVal (signedDigits cs) : ℤ)

/-- Validity of an optional exponent suffix. -/
def expPartOk : Option (List Char) → Bool
  | none => true
  | some s => isSignedDigits s

/-- Scale factor contributed by an optional exponent suffix with
exponent base `b` (10 for `e`, 2 for `p`). -/
def expFactor (b : ℚ) : Option (List Char) → ℚ
  | none => 1
  | some t => b ^ signedDigitsVal t

/-- The full decimal form of the constructor:
`(\d+(\.\d*)?|\.\d+)(e[+-]?\d+)?` case-insensitively. -/
def isDecimalForm (cs : List Char) : Bool :=
  isDecimalBody (splitOnExp 'e' 'E' cs).1 && expPartOk (splitOnExp 'e' 'E' cs).2

/-- Value of a string satisfying `isDecimalForm`: mantissa times a
power of ten. -/
def decimalFormVal (cs : List Char) : ℚ :=
  decimalBodyVal (splitOnExp 'e' 'E' cs).1 * expFactor 10 (splitOnExp 'e' 'E' cs).2

/-- The radix forms of the constructor
(`0x`/`0b`/`0o` prefix case-insensitively, base mantissa, optional
`p[+-]?\d+` binary exponent), with digit class `isD` and lower-case
tag `tag`. -/
def isRadixForm (isD : Char → Bool) (tag : Char) (cs : List Char) : Bool :=
  (cs.head? == some '0') &&
  ((cs.tail.head?.map Char.toLower == some tag) &&
   (isRadixBody isD (splitOnExp 'p' 'P' cs.tail.tail).1 &&
    expPartOk (splitOnExp 'p' 'P' cs.tail.tail).2))

/-- Value of a string satisfying `isRadixForm`: base mantissa times a
power of two. -/
def radixFormVal (isD : Char → Bool) (b : ℕ) (dv : Char → ℕ) (cs : List Char) : ℚ :=
  radixBodyVal isD b dv (splitOnExp 'p' 'P' cs.tail.tail).1 *
    expFactor 2 (splitOnExp 'p' 'P' cs.tail.tail).2

/-- The `decimal.js` constructor on a sign-stripped string, following
the source's dispatch: the decimal regular expression first
(`parseDecimal`), otherwise `parseOther`, which accepts exactly
`Infinity`, `NaN` (case-sensitively) and the hexadecimal, binary and
octal forms, and otherwise throws `[DecimalError] Invalid argument`
(modelled as `none`). -/
def parseUnsignedDec (cs : List Char) : Option DecNumber :=
  if isDecimalForm cs then some (.finite (decimalFormVal cs))
  else if cs = "Infinity".data then some .posInf
  else if cs = "NaN".data then some .nan
  else if isRadixForm isHexDigit 'x' cs then
    some (.finite (radixFormVal isHexDigit 16 hexDigitVal cs))
  else if isRadixForm isBinDigit 'b' cs then
    some (.finite (radixFormVal isBinDigit 2 hexDigitVal cs))
  else if isRadixForm isOctDigit 'o' cs then
    some (.finite (radixFormVal isOctDigit 8 hexDigitVal cs))
  else none

/-- The `decimal.js` string constructor: one leading `-` negates, one
leading `+` is dropped, the rest is parsed by `parseUnsignedDec`. -/
def parseDecimal (cs : List Char) : Option DecNumber :=
  if cs.head? = some '-' then (parseUnsignedDec cs.tail).map DecNumber.neg
  else if cs.head? = some '+' then parseUnsignedDec cs.tail
  else parseUnsignedDec cs

/-- `parseCurrency` from `src/lib/decimal.ts`: clean the input, feed it
to the `Decimal` constructor and multiply by 100 (`times(100)` is
exact on finite values; no rounding step occurs in the source). -/
def parseCurrency (s : String) : Option DecNumber :=
  (parseDecimal (cleanCurrency s)).map DecNumber.times100

/-- A character list with one optional leading sign stripped. -/
def numeralBody (cs : List Char) : List Char :=
  if cs.head? = some '-' ∨ cs.head? = some '+' then cs.tail else cs

/-- Valid mantissa for the digit class `isD`: non-empty in digits,
containing only digits and decimal points, with at most one decimal
point. -/
def ValidMantissa (isD : Char → Bool) (cs : List Char) : Prop :=
  (∃ c ∈ cs, isD c = true) ∧ (∀ c ∈ cs, isD c = true ∨ c = '.') ∧ cs.count '.' ≤ 1

/-- Valid optional exponent suffix: absent, or an optional sign
followed by at least one digit and nothing else. -/
def ValidExpPart : Option (List Char) → Prop
  | none => True
  | some t => signedDigits t ≠ [] ∧ ∀ c ∈ signedDigits t, c.isDigit = true

/-- Valid decimal numeral with optional `e`-exponent. -/
def ValidDecimalNumeral (cs : List Char) : Prop :=
  ValidMantissa Char.isDigit (splitOnExp 'e' 'E' cs).1 ∧
  ValidExpPart (splitOnExp 'e' 'E' cs).2

/-- Valid radix numeral: `0` then the tag letter (either case), a base
mantissa and an optional `p`-exponent. -/
def ValidRadixNumeral (isD : Char → Bool) (tag : Char) (cs : List Char) : Prop :=
  cs.head? = some '0' ∧ cs.tail.head?.map Char.toLower = some tag ∧
  ValidMantissa isD (splitOnExp 'p' 'P' cs.tail.tail).1 ∧
  ValidExpPart (splitOnExp 'p' 'P' cs.tail.tail).2

/-- A string accepted by the `decimal.js` constructor: after one
optional sign, a decimal numeral with optional exponent, the exact
words `Infinity` or `NaN`, or a binary, octal or hexadecimal numeral. -/
def ValidNumeral (cs : List Char) : Prop :=
  ValidDecimalNumeral (numeralBody cs) ∨
  numeralBody cs = "Infinity".data ∨ numeralBody cs = "NaN".data ∨
  ValidRadixNumeral isHexDigit 'x' (numeralBody cs) ∨
  ValidRadixNumeral isBinDigit 'b' (numeralBody cs) ∨
  ValidRadixNumeral isOctDigit 'o' (numeralBody cs)

instance (isD : Char → Bool) (cs : List Char) : Decidable (ValidMantissa isD cs) := by
  unfold ValidMantissa
  infer_instance

instance : (e : Option (List Char)) → Decidable (ValidExpPart e)
  | none => .isTrue trivial
  | some t =>
    inferInstanceAs (Decidable (signedDigits t ≠ [] ∧ ∀ c ∈ signedDigits t, c.isDigit = true))

instance (cs : List Char) : Decidable (ValidDecimalNumeral cs) := by
  unfold ValidDecimalNumeral
  infer_instance

instance (isD : Char → Bool) (tag : Char) (cs : List Char) :
    Decidable (ValidRadixNumeral isD tag cs) := by
  unfold ValidRadixNumeral
  infer_instance

instance (cs : List Char) : Decidable (ValidNumeral cs) := by
  unfold ValidNumeral
  infer_instance

theorem roundHalfEven_dist (q : ℚ) : |q - (roundHalfEven q : ℚ)| ≤ 1/2 := by
  have hfl : (⌊q⌋ : ℚ) ≤ q := Int.floor_le q
  have hfu : q < ⌊q⌋ + 1 := Int.lt_floor_add_one q
  unfold roundHalfEven
  split_ifs with h1 h2 h3
  · rw [abs_of_nonneg (by linarith)]
    linarith
  · push_cast
    rw [abs_of_nonpos (by linarith)]
    linarith
  · have hr : q - (⌊q⌋ : ℚ) = 1/2 := le_antisymm (not_lt.mp h2) (not_lt.mp h1)
    rw [abs_of_nonneg (by linarith)]
    linarith
  · have hr : q - (⌊q⌋ : ℚ) = 1/2 := le_antisymm (not_lt.mp h2) (not_lt.mp h1)
    push_cast
    rw [abs_of_nonpos (by linarith)]
    linarith

theorem roundHalfEven_tie (q : ℚ) (h : |q - (roundHalfEven q : ℚ)| = 1/2) :
    Even (roundHalfEven q) := by
  have hfl : (⌊q⌋ : ℚ) ≤ q := Int.floor_le q
  have hfu : q < ⌊q⌋ + 1 := Int.lt_floor_add_one q
  unfold roundHalfEven at h ⊢
  push_cast at h
  split_ifs at h ⊢ with h1 h2 h3
  · rw [abs_of_nonneg (by linarith)] at h
    linarith
  · rw [abs_of_nonpos (by linarith)] at h
    linarith
  · exact Int.even_iff.mpr h3
  · exact Int.even_add_one.mpr (fun hev => h3 (Int.even_iff.mp hev))

deriving instance DecidableEq for Except

/-- C6 counterexample: `divideCurrency(100, 0)` does not fail with a
`DivisionByZero` error; `decimal.js` yields `Infinity` and the function
returns it (`src/lib/decimal.ts` lines 137-139 contain no zero check). -/
theorem divideCurrency_zero_not_error :
    divideCurrency 100 0 = .ok DecValue.posInf ∧
    ¬ ∃ e, divideCurrency 100 0 = Except.error e := by
  refine ⟨by decide, ?_⟩
  rintro ⟨e, he⟩
  rw [show divideCurrency 100 0 = .ok DecValue.posInf from by decide] at he
  cases he

/-- C6 (amended): for every amount `a`, `divideCurrency(a, 0)` does not
fail; it returns `Infinity` when `a > 0`, `-Infinity` when `a < 0` and
`NaN` when `a = 0`. -/
theorem divideCurrency_zero_behavior :
    (∀ a : ℤ, ∃ v, divideCurrency a 0 = .ok v) ∧
    divideCurrency 100 0 = .ok DecValue.posInf ∧
    divideCurrency (-100) 0 = .ok DecValue.negInf ∧
    divideCurrency 0 0 = .ok DecValue.nan := by
  refine ⟨fun a => ?_, by decide, by decide, by decide⟩
  unfold divideCurrency
  split_ifs <;> exact ⟨_, rfl⟩

theorem divideCurrency_zero_behavior_witness :
    ∃ v, divideCurrency 7 0 = .ok v :=
  divideCurrency_zero_behavior.1 7

/-- C7: `calculatePercentage`, `multiplyCurrency` and `divideCurrency`
(on a non-zero divisor) each return the integer nearest to the exact
rational result, at distance at most one half, and resolve an exact
half-way tie to the even integer (banker's rounding); in particular
`calculatePercentage 123456 15 = 18518` and
`addCurrency 100000 50000 = 150000`. -/
theorem money_rounding_policy :
    (∀ (a : ℤ) (f : ℚ), |(a * f : ℚ) - (multiplyCurrency a f : ℚ)| ≤ 1/2 ∧
      (|(a * f : ℚ) - (multiplyCurrency a f : ℚ)| = 1/2 → Even (multiplyCurrency a f))) ∧
    (∀ (a : ℤ) (p : ℚ), |(a * (p / 100) : ℚ) - (calculatePercentage a p : ℚ)| ≤ 1/2 ∧
      (|(a * (p / 100) : ℚ) - (calculatePercentage a p : ℚ)| = 1/2 →
        Even (calculatePercentage a p))) ∧
    (∀ (a : ℤ) (d : ℚ), d ≠ 0 → ∃ z : ℤ,
      divideCurrency a d = .ok (DecValue.finite z) ∧
      |((a : ℚ) / d) - (z : ℚ)| ≤ 1/2 ∧ (|((a : ℚ) / d) - (z : ℚ)| = 1/2 → Even z)) ∧
    calculatePercentage 123456 15 = 18518 ∧
    addCurrency 100000 50000 = 150000 := by
  refine ⟨fun a f => ⟨roundHalfEven_dist _, roundHalfEven_tie _⟩,
    fun a p => ⟨roundHalfEven_dist _, roundHalfEven_tie _⟩,
    fun a d hd => ⟨roundHalfEven ((a : ℚ) / d), ?_, roundHalfEven_dist _, roundHalfEven_tie _⟩,
    ?_, by decide⟩
  · simp [divideCurrency, hd]
  · unfold calculatePercentage roundHalfEven
    norm_num

theorem money_rounding_policy_witness :
    ∃ z : ℤ, divideCurrency 100000 3 = .ok (DecValue.finite z) ∧
      |((100000 : ℚ) / 3) - (z : ℚ)| ≤ 1/2 ∧
      (|((100000 : ℚ) / 3) - (z : ℚ)| = 1/2 → Even z) :=
  money_rounding_policy.2.2.1 100000 3 (by norm_num)

theorem takeWhile_eq_self_of_all {p : Char → Bool} {l : List Char} (h : l.all p = true) :
    l.takeWhile p = l := by
  induction l with
  | nil => rfl
  | cons a t ih =>
    simp only [List.all_cons, Bool.and_eq_true] at h
    simp [List.takeWhile_cons, h.1, ih h.2]

theorem dropWhile_eq_nil_of_all {p : Char → Bool} {l : List Char} (h : l.all p = true) :
    l.dropWhile p = [] := by
  induction l with
  | nil => rfl
  | cons a t ih =>
    simp only [List.all_cons, Bool.and_eq_true] at h
    simp [List.dropWhile_cons, h.1, ih h.2]

theorem takeWhile_append_stop {p : Char → Bool} {l r : List Char} {c : Char}
    (hl : l.all p = true) (hc : p c = false) :
    (l ++ c :: r).takeWhile p = l := by
  induction l with
  | nil => simp [List.takeWhile_cons, hc]
  | cons a t ih =>
    simp only [List.all_cons, Bool.and_eq_true] at hl
    simp [List.takeWhile_cons, hl.1, ih hl.2]

theorem dropWhile_append_stop {p : Char → Bool} {l r : List Char} {c : Char}
    (hl : l.all p = true) (hc : p c = false) :
    (l ++ c :: r).dropWhile p = c :: r := by
  induction l with
  | nil => simp [List.dropWhile_cons, hc]
  | cons a t ih =>
    simp only [List.all_cons, Bool.and_eq_true] at hl
    simp [List.dropWhile_cons, hl.1, ih hl.2]

theorem digit_not_sign {c : Char} (h : c.isDigit = true) :
    c ≠ '-' ∧ c ≠ '+' ∧ c ≠ '.' := by
  refine ⟨?_, ?_, ?_⟩ <;> rintro rfl <;> revert h <;> decide

theorem isDecimalBody_digits {ds : List Char} (h : ds.all Char.isDigit = true)
    (hne : ds ≠ []) : isDecimalBody ds = true := by
  unfold isDecimalBody
  rw [dropWhile_eq_nil_of_all h, takeWhile_eq_self_of_all h]
  simpa using hne

theorem decimalBodyVal_digits {ds : List Char} (h : ds.all Char.isDigit = true) :
    decimalBodyVal ds = (digitsVal ds : ℚ) := by
  unfold decimalBodyVal
  rw [dropWhile_eq_nil_of_all h, takeWhile_eq_self_of_all h]

theorem isDecimalBody_digits_dot {ds fs : List Char} (hds : ds.all Char.isDigit = true)
    (hfs : fs.all Char.isDigit = true) (hne : ds ≠ []) :
    isDecimalBody (ds ++ '.' :: fs) = true := by
  unfold isDecimalBody
  rw [dropWhile_append_stop hds (by decide), takeWhile_append_stop hds (by decide)]
  simp [hfs]
  exact Or.inl hne

theorem decimalBodyVal_digits_dot {ds fs : List Char} (hds : ds.all Char.isDigit = true) :
    decimalBodyVal (ds ++ '.' :: fs) =
      (digitsVal ds : ℚ) + (digitsVal fs : ℚ) / 10 ^ fs.length := by
  unfold decimalBodyVal
  rw [dropWhile_append_stop hds (by decide), takeWhile_append_stop hds (by decide)]
  rfl

theorem noExpMarker_of_digits {ds : List Char} (h : ds.all Char.isDigit = true) :
    ds.all (fun c => !(c == 'e' || c == 'E')) = true := by
  rw [List.all_eq_true] at h ⊢
  intro c hc
  have hd := h c hc
  have h1 : c ≠ 'e' := by rintro rfl; revert hd; decide
  have h2 : c ≠ 'E' := by rintro rfl; revert hd; decide
  simp [h1, h2]

theorem noExpMarker_digits_dot {ds fs : List Char} (hds : ds.all Char.isDigit = true)
    (hfs : fs.all Char.isDigit = true) :
    (ds ++ '.' :: fs).all (fun c => !(c == 'e' || c == 'E')) = true := by
  rw [List.all_append, List.all_cons, noExpMarker_of_digits hds, noExpMarker_of_digits hfs]
  decide

theorem splitOnExp_eq_self {e1 e2 : Char} {cs : List Char}
    (h : cs.all (fun c => !(c == e1 || c == e2)) = true) :
    splitOnExp e1 e2 cs = (cs, none) := by
  unfold splitOnExp
  rw [takeWhile_eq_self_of_all h, dropWhile_eq_nil_of_all h]

theorem parseUnsignedDec_of_noExp {cs : List Char}
    (hsp : splitOnExp 'e' 'E' cs = (cs, none)) (hb : isDecimalBody cs = true) :
    parseUnsignedDec cs = some (.finite (decimalBodyVal cs)) := by
  have hform : isDecimalForm cs = true := by
    unfold isDecimalForm
    rw [hsp]
    simp [hb, expPartOk]
  have hval : decimalFormVal cs = decimalBodyVal cs := by
    unfold decimalFormVal
    rw [hsp]
    simp [expFactor]
  unfold parseUnsignedDec
  rw [if_pos hform, hval]

theorem parseUnsignedDec_digits {ds : List Char} (h : ds.all Char.isDigit = true)
    (hne : ds ≠ []) : parseUnsignedDec ds = some (.finite ((digitsVal ds : ℚ))) := by
  rw [parseUnsignedDec_of_noExp (splitOnExp_eq_self (noExpMarker_of_digits h))
      (isDecimalBody_digits h hne), decimalBodyVal_digits h]

theorem parseUnsignedDec_digits_dot {ds fs : List Char} (hds : ds.all Char.isDigit = true)
    (hfs : fs.all Char.isDigit = true) (hne : ds ≠ []) :
    parseUnsignedDec (ds ++ '.' :: fs) =
      some (.finite ((digitsVal ds : ℚ) + (digitsVal fs : ℚ) / 10 ^ fs.length)) := by
  rw [parseUnsignedDec_of_noExp (splitOnExp_eq_self (noExpMarker_digits_dot hds hfs))
      (isDecimalBody_digits_dot hds hfs hne), decimalBodyVal_digits_dot hds]

theorem parseDecimal_head_digit {cs : List Char} {a : Char} (hh : cs.head? = some a)
    (ha : a.isDigit = true) : parseDecimal cs = parseUnsignedDec cs := by
  unfold parseDecimal
  rw [if_neg, if_neg]
  · rw [hh]
    intro hcon
    injection hcon with hcon
    exact (digit_not_sign ha).2.1 hcon
  · rw [hh]
    intro hcon
    injection hcon with hcon
    exact (digit_not_sign ha).1 hcon

theorem parseDecimal_digits {ds : List Char} (h : ds.all Char.isDigit = true)
    (hne : ds ≠ []) : parseDecimal ds = some (.finite ((digitsVal ds : ℚ))) := by
  obtain ⟨a, t, rfl⟩ := List.exists_cons_of_ne_nil hne
  have ha : a.isDigit = true := by
    simp only [List.all_cons, Bool.and_eq_true] at h
    exact h.1
  rw [parseDecimal_head_digit List.head?_cons ha]
  exact parseUnsignedDec_digits h hne

theorem parseDecimal_digits_dot {ds fs : List Char} (hds : ds.all Char.isDigit = true)
    (hfs : fs.all Char.isDigit = true) (hne : ds ≠ []) :
    parseDecimal (ds ++ '.' :: fs) =
      some (.finite ((digitsVal ds : ℚ) + (digitsVal fs : ℚ) / 10 ^ fs.length)) := by
  obtain ⟨a, t, rfl⟩ := List.exists_cons_of_ne_nil hne
  have ha : a.isDigit = true := by
    simp only [List.all_cons, Bool.and_eq_true] at hds
    exact hds.1
  rw [parseDecimal_head_digit (by simp) ha]
  exact parseUnsignedDec_digits_dot hds hfs hne

theorem parseDecimal_neg (cs : List Char) :
    parseDecimal ('-' :: cs) = (parseUnsignedDec cs).map DecNumber.neg := by
  unfold parseDecimal
  simp

theorem parseCurrency_eval_dot {s : String} (ds fs : List Char)
    (hc : cleanCurrency s = ds ++ '.' :: fs) (hds : ds.all Char.isDigit = true)
    (hfs : fs.all Char.isDigit = true) (hne : ds ≠ []) :
    parseCurrency s =
      some (.finite (((digitsVal ds : ℚ) + (digitsVal fs : ℚ) / 10 ^ fs.length) * 100)) := by
  unfold parseCurrency
  rw [hc, parseDecimal_digits_dot hds hfs hne]
  rfl

theorem parseCurrency_eval_neg_dot {s : String} (ds fs : List Char)
    (hc : cleanCurrency s = '-' :: (ds ++ '.' :: fs)) (hds : ds.all Char.isDigit = true)
    (hfs : fs.all Char.isDigit = true) (hne : ds ≠ []) :
    parseCurrency s =
      some (.finite (-((digitsVal ds : ℚ) + (digitsVal fs : ℚ) / 10 ^ fs.length) * 100)) := by
  unfold parseCurrency
  rw [hc, parseDecimal_neg, parseUnsignedDec_digits_dot hds hfs hne]
  rfl

/-- C8: the parse/format round-trip holds at the representative values
0, 1, -100 and 999999999999: `parseCurrency (formatCurrency n)` recovers
exactly `n` cents. -/
theorem parse_format_round_trip :
    parseCurrency (formatCurrency 0) = some (DecNumber.finite 0) ∧
    parseCurrency (formatCurrency 1) = some (DecNumber.finite 1) ∧
    parseCurrency (formatCurrency (-100)) = some (DecNumber.finite (-100)) ∧
    parseCurrency (formatCurrency 999999999999) = some (DecNumber.finite 999999999999) := by
  refine ⟨?_, ?_, ?_, ?_⟩
  · rw [parseCurrency_eval_dot
      ['0'] ['0', '0'] (by decide) (by decide) (by decide) (by decide)]
    norm_num [show digitsVal ['0'] = 0 from by decide,
      show digitsVal ['0', '0'] = 0 from by decide]
  · rw [parseCurrency_eval_dot
      ['0'] ['0', '1'] (by decide) (by decide) (by decide) (by decide)]
    norm_num [show digitsVal ['0'] = 0 from by decide,
      show digitsVal ['0', '1'] = 1 from by decide]
  · rw [parseCurrency_eval_neg_dot
      ['1'] ['0', '0'] (by decide) (by decide) (by decide) (by decide)]
    norm_num [show digitsVal ['1'] = 1 from by decide,
      show digitsVal ['0', '0'] = 0 from by decide]
  · rw [parseCurrency_eval_dot
      ['9', '9', '9', '9', '9', '9', '9', '9', '9', '9'] ['9', '9']
      (by decide) (by decide) (by decide) (by decide)]
    norm_num [show digitsVal ['9', '9', '9', '9', '9', '9', '9', '9', '9', '9'] = 9999999999
        from by decide,
      show digitsVal ['9', '9'] = 99 from by decide]

theorem dropWhile_head_false (p : Char → Bool) :
    ∀ (l : List Char) {x : Char} {xs : List Char}, l.dropWhile p = x :: xs → p x = false := by
  intro l
  induction l with
  | nil => intro x xs h; simp at h
  | cons a t ih =>
    intro x xs h
    rw [List.dropWhile_cons] at h
    split at h
    · exact ih h
    · rename_i hpa
      injection h with h1 h2
      subst h1
      simpa using hpa

theorem isDecimalBody_iff (cs : List Char) :
    isDecimalBody cs = true ↔
      ((∃ c ∈ cs, c.isDigit = true) ∧ (∀ c ∈ cs, c.isDigit = true ∨ c = '.') ∧
        cs.count '.' ≤ 1) := by
  have hsplit : cs.takeWhile Char.isDigit ++ cs.dropWhile Char.isDigit = cs :=
    List.takeWhile_append_dropWhile Char.isDigit cs
  rcases hrs : cs.dropWhile Char.isDigit with _ | ⟨r, rest⟩
  · have hall : ∀ c ∈ cs, Char.isDigit c = true := List.dropWhile_eq_nil_iff.mp hrs
    have hts : cs.takeWhile Char.isDigit = cs := by
      rw [hrs] at hsplit
      simpa using hsplit
    have hbody : isDecimalBody cs = !cs.isEmpty := by
      unfold isDecimalBody
      rw [hrs, hts]
    rw [hbody]
    constructor
    · intro hne
      have hcsne : cs ≠ [] := by
        intro hnil
        rw [hnil] at hne
        simp at hne
      obtain ⟨a, t, rfl⟩ := List.exists_cons_of_ne_nil hcsne
      refine ⟨⟨a, by simp, hall a (by simp)⟩, fun c hc => Or.inl (hall c hc), ?_⟩
      have hnd : '.' ∉ (a :: t) := fun hmem => by simpa using hall '.' hmem
      simp [List.count_eq_zero.mpr hnd]
    · rintro ⟨⟨c, hc, _⟩, _, _⟩
      have hcne := List.ne_nil_of_mem hc
      simp [List.isEmpty_iff, hcne]
  · have hr : Char.isDigit r = false := dropWhile_head_false _ cs hrs
    rw [hrs] at hsplit
    have hcs : cs = cs.takeWhile Char.isDigit ++ r :: rest := hsplit.symm
    have htall : ∀ c ∈ cs.takeWhile Char.isDigit, Char.isDigit c = true := fun c hc =>
      List.mem_takeWhile_imp hc
    by_cases hdot : r = '.'
    · subst hdot
      have hbody : isDecimalBody cs =
          ((!(cs.takeWhile Char.isDigit).isEmpty || !rest.isEmpty) &&
            rest.all Char.isDigit) := by
        unfold isDecimalBody
        rw [hrs]
        rfl
      rw [hbody]
      constructor
      · intro hb
        simp only [Bool.and_eq_true, Bool.or_eq_true, Bool.not_eq_true'] at hb
        obtain ⟨hne, hrestall⟩ := hb
        have hrestall' : ∀ c ∈ rest, Char.isDigit c = true := fun c hc =>
          List.all_eq_true.mp hrestall c hc
        refine ⟨?_, ?_, ?_⟩
        · rcases hne with h1 | h1
          · obtain ⟨a, t, hds⟩ :=
              List.exists_cons_of_ne_nil (l := cs.takeWhile Char.isDigit)
                (fun hnil => by rw [hnil] at h1; simp at h1)
            refine ⟨a, ?_, htall a (by rw [hds]; simp)⟩
            rw [hcs, hds]
            simp
          · obtain ⟨a, t, hrs2⟩ :=
              List.exists_cons_of_ne_nil (l := rest)
                (fun hnil => by rw [hnil] at h1; simp at h1)
            refine ⟨a, ?_, hrestall' a (by rw [hrs2]; simp)⟩
            rw [hcs, hrs2]
            simp
        · intro c hc
          rw [hcs] at hc
          rcases List.mem_append.mp hc with h1 | h1
          · exact Or.inl (htall c h1)
          · rcases List.mem_cons.mp h1 with rfl | h1
            · exact Or.inr rfl
            · exact Or.inl (hrestall' c h1)
        · have hd0 : (cs.takeWhile Char.isDigit).count '.' = 0 :=
            List.count_eq_zero.mpr (fun hmem => by simpa using htall '.' hmem)
          have hr0 : rest.count '.' = 0 :=
            List.count_eq_zero.mpr (fun hmem => by simpa using hrestall' '.' hmem)
          rw [hcs]
          simp [List.count_append, List.count_cons, hd0, hr0]
      · rintro ⟨hex, hall2, hcount⟩
        have hcount' : (cs.takeWhile Char.isDigit).count '.' + (rest.count '.' + 1) ≤ 1 := by
          rw [hcs] at hcount
          simpa [List.count_append, List.count_cons] using hcount
        have hr0 : rest.count '.' = 0 := by omega
        have hrestall : rest.all Char.isDigit = true := by
          rw [List.all_eq_true]
          intro c hc
          have hcm : c ∈ cs := by
            rw [hcs]
            simp [hc]
          rcases hall2 c hcm with h | rfl
          · exact h
          · exact absurd hc (List.count_eq_zero.mp hr0)
        obtain ⟨c, hc, hcd⟩ := hex
        rw [hcs] at hc
        rcases List.mem_append.mp hc with h1 | h1
        · have hne : (cs.takeWhile Char.isDigit).isEmpty = false := by
            have h2 := List.ne_nil_of_mem h1
            cases h3 : cs.takeWhile Char.isDigit with
            | nil => exact absurd h3 h2
            | cons a t => rfl
          simp [hrestall, hne]
        · rcases List.mem_cons.mp h1 with rfl | h1
          · exact absurd hcd (by decide)
          · have hne : rest.isEmpty = false := by
              have h2 := List.ne_nil_of_mem h1
              cases h3 : rest with
              | nil => exact absurd h3 h2
              | cons a t => rfl
            simp [hrestall, hne]
    · have hbody : isDecimalBody cs = false := by
        unfold isDecimalBody
        rw [hrs]
        split
        · rename_i heq
          exact absurd heq (by simp)
        · rename_i fs heq
          injection heq with heq1 heq2
          exact absurd heq1 hdot
        · rfl
      rw [hbody]
      constructor
      · intro h
        exact absurd h (by simp)
      · rintro ⟨_, hall2, _⟩
        have hrin : r ∈ cs := by
          rw [hcs]
          simp
        rcases hall2 r hrin with h | h
        · rw [h] at hr
          cases hr
        · exact absurd h hdot

theorem radixBody_iff {isD : Char → Bool} (hdot : isD '.' = false) (cs : List Char) :
    isRadixBody isD cs = true ↔
      ((∃ c ∈ cs, isD c = true) ∧ (∀ c ∈ cs, isD c = true ∨ c = '.') ∧
        cs.count '.' ≤ 1) := by
  have hsplit : cs.takeWhile isD ++ cs.dropWhile isD = cs :=
    List.takeWhile_append_dropWhile isD cs
  rcases hrs : cs.dropWhile isD with _ | ⟨r, rest⟩
  · have hall : ∀ c ∈ cs, isD c = true := List.dropWhile_eq_nil_iff.mp hrs
    have hts : cs.takeWhile isD = cs := by
      rw [hrs] at hsplit
      simpa using hsplit
    have hbody : isRadixBody isD cs = !cs.isEmpty := by
      unfold isRadixBody
      rw [hrs, hts]
    rw [hbody]
    constructor
    · intro hne
      have hcsne : cs ≠ [] := by
        intro hnil
        rw [hnil] at hne
        simp at hne
      obtain ⟨a, t, rfl⟩ := List.exists_cons_of_ne_nil hcsne
      refine ⟨⟨a, by simp, hall a (by simp)⟩, fun c hc => Or.inl (hall c hc), ?_⟩
      have hnd : '.' ∉ (a :: t) := fun hmem => by
        have h0 := hall '.' hmem
        rw [hdot] at h0
        exact Bool.noConfusion h0
      simp [List.count_eq_zero.mpr hnd]
    · rintro ⟨⟨c, hc, _⟩, _, _⟩
      have hcne := List.ne_nil_of_mem hc
      simp [List.isEmpty_iff, hcne]
  · have hr : isD r = false := dropWhile_head_false _ cs hrs
    rw [hrs] at hsplit
    have hcs : cs = cs.takeWhile isD ++ r :: rest := hsplit.symm
    have htall : ∀ c ∈ cs.takeWhile isD, isD c = true := fun c hc =>
      List.mem_takeWhile_imp hc
    by_cases hdr : r = '.'
    · subst hdr
      have hbody : isRadixBody isD cs =
          ((!(cs.takeWhile isD).isEmpty || !rest.isEmpty) && rest.all isD) := by
        unfold isRadixBody
        rw [hrs]
        rfl
      rw [hbody]
      constructor
      · intro hb
        simp only [Bool.and_eq_true, Bool.or_eq_true, Bool.not_eq_true'] at hb
        obtain ⟨hne, hrestall⟩ := hb
        have hrestall' : ∀ c ∈ rest, isD c = true := fun c hc =>
          List.all_eq_true.mp hrestall c hc
        refine ⟨?_, ?_, ?_⟩
        · rcases hne with h1 | h1
          · obtain ⟨a, t, hds⟩ :=
              List.exists_cons_of_ne_nil (l := cs.takeWhile isD)
                (fun hnil => by rw [hnil] at h1; simp at h1)
            refine ⟨a, ?_, htall a (by rw [hds]; simp)⟩
            rw [hcs, hds]
            simp
          · obtain ⟨a, t, hrs2⟩ :=
              List.exists_cons_of_ne_nil (l := rest)
                (fun hnil => by rw [hnil] at h1; simp at h1)
            refine ⟨a, ?_, hrestall' a (by rw [hrs2]; simp)⟩
            rw [hcs, hrs2]
            simp
        · intro c hc
          rw [hcs] at hc
          rcases List.mem_append.mp hc with h1 | h1
          · exact Or.inl (htall c h1)
          · rcases List.mem_cons.mp h1 with rfl | h1
            · exact Or.inr rfl
            · exact Or.inl (hrestall' c h1)
        · have hd0 : (cs.takeWhile isD).count '.' = 0 :=
            List.count_eq_zero.mpr (fun hmem => by
              have h0 := htall '.' hmem
              rw [hdot] at h0
              exact Bool.noConfusion h0)
          have hr0 : rest.count '.' = 0 :=
            List.count_eq_zero.mpr (fun hmem => by
              have h0 := hrestall' '.' hmem
              rw [hdot] at h0
              exact Bool.noConfusion h0)
          rw [hcs]
          simp [List.count_append, List.count_cons, hd0, hr0]
      · rintro ⟨hex, hall2, hcount⟩
        have hcount' : (cs.takeWhile isD).count '.' + (rest.count '.' + 1) ≤ 1 := by
          rw [hcs] at hcount
          simpa [List.count_append, List.count_cons] using hcount
        have hr0 : rest.count '.' = 0 := by omega
        have hrestall : rest.all isD = true := by
          rw [List.all_eq_true]
          intro c hc
          have hcm : c ∈ cs := by
            rw [hcs]
            simp [hc]
          rcases hall2 c hcm with h | rfl
          · exact h
          · exact absurd hc (List.count_eq_zero.mp hr0)
        obtain ⟨c, hc, hcd⟩ := hex
        rw [hcs] at hc
        rcases List.mem_append.mp hc with h1 | h1
        · have hne : (cs.takeWhile isD).isEmpty = false := by
            have h2 := List.ne_nil_of_mem h1
            cases h3 : cs.takeWhile isD with
            | nil => exact absurd h3 h2
            | cons a t => rfl
          simp [hrestall, hne]
        · rcases List.mem_cons.mp h1 with rfl | h1
          · exact absurd hcd (by rw [hdot]; decide)
          · have hne : rest.isEmpty = false := by
              have h2 := List.ne_nil_of_mem h1
              cases h3 : rest with
              | nil => exact absurd h3 h2
              | cons a t => rfl
            simp [hrestall, hne]
    · have hbody : isRadixBody isD cs = false := by
        unfold isRadixBody
        rw [hrs]
        split
        · rename_i heq
          exact absurd heq (by simp)
        · rename_i fs heq
          injection heq with heq1 heq2
          exact absurd heq1 hdr
        · rfl
      rw [hbody]
      constructor
      · intro h
        exact absurd h (by simp)
      · rintro ⟨_, hall2, _⟩
        have hrin : r ∈ cs := by
          rw [hcs]
          simp
        rcases hall2 r hrin with h | h
        · rw [h] at hr
          cases hr
        · exact absurd h hdr

theorem isSignedDigits_iff (t : List Char) :
    isSignedDigits t = true ↔ ValidExpPart (some t) := by
  unfold isSignedDigits ValidExpPart
  rw [Bool.and_eq_true, List.all_eq_true]
  constructor
  · rintro ⟨h1, h2⟩
    refine ⟨fun hnil => ?_, h2⟩
    rw [hnil] at h1
    simp at h1
  · rintro ⟨h1, h2⟩
    refine ⟨?_, h2⟩
    cases h3 : signedDigits t with
    | nil => exact absurd h3 h1
    | cons a l => rfl

theorem expPartOk_iff : ∀ e : Option (List Char), expPartOk e = true ↔ ValidExpPart e
  | none => by simp [expPartOk, ValidExpPart]
  | some t => isSignedDigits_iff t

theorem isDecimalForm_iff (cs : List Char) :
    isDecimalForm cs = true ↔ ValidDecimalNumeral cs := by
  unfold isDecimalForm ValidDecimalNumeral
  rw [Bool.and_eq_true]
  exact and_congr (isDecimalBody_iff _) (expPartOk_iff _)

theorem isRadixForm_iff (isD : Char → Bool) (tag : Char) (hdot : isD '.' = false)
    (cs : List Char) :
    isRadixForm isD tag cs = true ↔ ValidRadixNumeral isD tag cs := by
  unfold isRadixForm ValidRadixNumeral
  rw [Bool.and_eq_true, Bool.and_eq_true, Bool.and_eq_true]
  exact and_congr beq_iff_eq (and_congr beq_iff_eq
    (and_congr (radixBody_iff hdot _) (expPartOk_iff _)))

theorem parseUnsignedDec_none_iff (cs : List Char) :
    parseUnsignedDec cs = none ↔
      ¬(ValidDecimalNumeral cs ∨ cs = "Infinity".data ∨ cs = "NaN".data ∨
        ValidRadixNumeral isHexDigit 'x' cs ∨ ValidRadixNumeral isBinDigit 'b' cs ∨
        ValidRadixNumeral isOctDigit 'o' cs) := by
  unfold parseUnsignedDec
  split_ifs with h1 h2 h3 h4 h5 h6
  · exact iff_of_false (by simp)
      (fun hcon => hcon (Or.inl ((isDecimalForm_iff cs).mp h1)))
  · exact iff_of_false (by simp)
      (fun hcon => hcon (Or.inr (Or.inl h2)))
  · exact iff_of_false (by simp)
      (fun hcon => hcon (Or.inr (Or.inr (Or.inl h3))))
  · exact iff_of_false (by simp)
      (fun hcon => hcon (Or.inr (Or.inr (Or.inr (Or.inl
        ((isRadixForm_iff isHexDigit 'x' (by decide) cs).mp h4))))))
  · exact iff_of_false (by simp)
      (fun hcon => hcon (Or.inr (Or.inr (Or.inr (Or.inr (Or.inl
        ((isRadixForm_iff isBinDigit 'b' (by decide) cs).mp h5)))))))
  · exact iff_of_false (by simp)
      (fun hcon => hcon (Or.inr (Or.inr (Or.inr (Or.inr (Or.inr
        ((isRadixForm_iff isOctDigit 'o' (by decide) cs).mp h6)))))))
  · refine iff_of_true rfl ?_
    rintro (h | h | h | h | h | h)
    · exact h1 ((isDecimalForm_iff cs).mpr h)
    · exact h2 h
    · exact h3 h
    · exact h4 ((isRadixForm_iff isHexDigit 'x' (by decide) cs).mpr h)
    · exact h5 ((isRadixForm_iff isBinDigit 'b' (by decide) cs).mpr h)
    · exact h6 ((isRadixForm_iff isOctDigit 'o' (by decide) cs).mpr h)

theorem parseDecimal_none_iff (cs : List Char) :
    parseDecimal cs = none ↔ ¬ ValidNumeral cs := by
  have key : parseDecimal cs = none ↔ parseUnsignedDec (numeralBody cs) = none := by
    unfold parseDecimal numeralBody
    by_cases hm : cs.head? = some '-'
    · rw [if_pos hm, if_pos (Or.inl hm), Option.map_eq_none']
    · by_cases hp : cs.head? = some '+'
      · rw [if_neg hm, if_pos hp, if_pos (Or.inr hp)]
      · rw [if_neg hm, if_neg hp,
          if_neg (show ¬(cs.head? = some '-' ∨ cs.head? = some '+') from by tauto)]
  rw [key, parseUnsignedDec_none_iff]
  unfold ValidNumeral
  exact Iff.rfl

theorem radixBodyVal_digits {isD : Char → Bool} {b : ℕ} {dv : Char → ℕ} {ds : List Char}
    (h : ds.all isD = true) :
    radixBodyVal isD b dv ds = (digitsValBase b dv ds : ℚ) := by
  unfold radixBodyVal
  rw [dropWhile_eq_nil_of_all h, takeWhile_eq_self_of_all h]

theorem cleanCurrency_digitDot {s : String}
    (h : ∀ c ∈ s.data, c ∈ ['0', '1', '2', '3', '4', '5', '6', '7', '8', '9', '.']) :
    cleanCurrency s = s.data.filter (fun c => c != '.') := by
  unfold cleanCurrency
  have h1 : s.data.filter (fun c => !isStrippedChar c) = s.data := by
    rw [List.filter_eq_self]
    intro a ha
    have hm := h a ha
    fin_cases hm <;> decide
  rw [h1]
  have h2 : ∀ a ∈ s.data.filter (fun c => c != '.'),
      (fun c => if c == ',' then '.' else c) a = id a := by
    intro a ha
    have ham := h a (List.mem_of_mem_filter ha)
    fin_cases ham <;> decide
  rw [List.map_congr_left h2, List.map_id]

/-- C10: `parseCurrency` deletes every period before treating the comma
as decimal separator, so on a dot-decimal input without commas it
returns 100 times the integer obtained by deleting the dots; in
particular `parseCurrency "1234.56" = 12345600` cents, not the `123456`
its own doc comment claims. -/
theorem parseCurrency_strips_periods :
    (∀ s : String,
      (∀ c ∈ s.data, c ∈ ['0', '1', '2', '3', '4', '5', '6', '7', '8', '9', '.']) →
      (∃ c ∈ s.data, c.isDigit = true) →
      parseCurrency s =
        some (DecNumber.finite (100 * (digitsVal (s.data.filter (fun c => c != '.')) : ℚ)))) ∧
    parseCurrency "1234.56" = some (DecNumber.finite 12345600) ∧
    parseCurrency "1234.56" ≠ some (DecNumber.finite 123456) := by
  have hval : parseCurrency "1234.56" = some (DecNumber.finite 12345600) := by
    unfold parseCurrency
    rw [show cleanCurrency "1234.56" = ['1', '2', '3', '4', '5', '6'] from by decide,
      parseDecimal_digits (by decide) (by decide)]
    rw [show Option.map DecNumber.times100
          (some (DecNumber.finite ((digitsVal ['1', '2', '3', '4', '5', '6'] : ℚ))))
        = some (DecNumber.finite ((digitsVal ['1', '2', '3', '4', '5', '6'] : ℚ) * 100)) from rfl]
    norm_num [show digitsVal ['1', '2', '3', '4', '5', '6'] = 123456 from by decide]
  refine ⟨fun s hmem hex => ?_, hval, ?_⟩
  · have hclean := cleanCurrency_digitDot hmem
    have hall : (s.data.filter (fun c => c != '.')).all Char.isDigit = true := by
      rw [List.all_eq_true]
      intro c hc
      have h1 := List.mem_of_mem_filter hc
      have h2 := List.of_mem_filter hc
      have h3 := hmem c h1
      fin_cases h3 <;> revert h2 <;> decide
    have hne : s.data.filter (fun c => c != '.') ≠ [] := by
      obtain ⟨c, hc, hcd⟩ := hex
      have hcne : (c != '.') = true := by
        have h3 := hmem c hc
        fin_cases h3 <;> revert hcd <;> decide
      exact List.ne_nil_of_mem (List.mem_filter.mpr ⟨hc, hcne⟩)
    unfold parseCurrency
    rw [hclean, parseDecimal_digits hall hne]
    rw [show Option.map DecNumber.times100
          (some (DecNumber.finite ((digitsVal (s.data.filter (fun c => c != '.')) : ℚ))))
        = some (DecNumber.finite
            ((digitsVal (s.data.filter (fun c => c != '.')) : ℚ) * 100)) from rfl]
    rw [mul_comm]
  · intro hcon
    rw [hval] at hcon
    have h := DecNumber.finite.inj (Option.some.inj hcon)
    norm_num at h

theorem parseCurrency_strips_periods_witness :
    parseCurrency "1234.56" =
      some (DecNumber.finite
        (100 * (digitsVal ("1234.56".data.filter (fun c => c != '.')) : ℚ))) :=
  parseCurrency_strips_periods.1 "1234.56" (by decide) (by decide)

/-- `category_type` enum from `src/server/db/schema.ts`. -/
inductive CategoryType where
  | Expense
  | Income
deriving DecidableEq

/-- A `categories` row (`src/server/db/schema.ts` lines 162-177); the
`uuid` key is modelled as `ℕ`, timestamps omitted. -/
structure Category where
  id : ℕ
  name : String
  type : CategoryType
  color : String
  icon : String
  parentCategoryId : Option ℕ
  archived : Bool
deriving DecidableEq

/-- Hex-colour check from `createCategorySchema`
(`/^#[0-9A-Fa-f]{6}$/` in `src/lib/validations/category.ts`). -/
def isHexColor (s : String) : Bool :=
  match s.data with
  | '#' :: rest =>
    rest.length == 6 &&
      rest.all (fun c => c.isDigit || ('A' ≤ c && c ≤ 'F') || ('a' ≤ c && c ≤ 'f'))
  | _ => false

/-- `createCategorySchema` input (`src/lib/validations/category.ts`). -/
structure CreateCategoryInput where
  name : String
  type : CategoryType
  color : String
  icon : String
  parentCategoryId : Option ℕ
deriving DecidableEq

/-- Zod shape validation of `createCategorySchema`: name 1-100
characters, `#RRGGBB` colour, icon 1-50 characters. -/
def validCreateCategory (i : CreateCategoryInput) : Bool :=
  decide (1 ≤ i.name.length) && decide (i.name.length ≤ 100) && isHexColor i.color &&
    decide (1 ≤ i.icon.length) && decide (i.icon.length ≤ 50)

/-- `updateCategorySchema` input (`src/lib/validations/category.ts`):
every field optional, `type` absent (immutable), `parentCategoryId`
nullable-optional (`some none` models an explicit `null`). -/
structure UpdateCategoryInput where
  name : Option String
  color : Option String
  icon : Option String
  parentCategoryId : Option (Option ℕ)
deriving DecidableEq

/-- Zod shape validation of `updateCategorySchema`. -/
def validUpdateCategory (d : UpdateCategoryInput) : Bool :=
  (match d.name with
   | none => true
   | some n => decide (1 ≤ n.length) && decide (n.length ≤ 100)) &&
  (match d.color with
   | none => true
   | some c => isHexColor c) &&
  (match d.icon with
   | none => true
   | some i => decide (1 ≤ i.length) && decide (i.length ≤ 50))

/-- The drizzle `.set(input.data)` semantics: fields absent from the
partial update are left unchanged, `parentCategoryId: null` clears the
link. -/
def applyCategoryUpdate (c : Category) (d : UpdateCategoryInput) : Category :=
  { c with
    name := d.name.getD c.name
    color := d.color.getD c.color
    icon := d.icon.getD c.icon
    parentCategoryId :=
      match d.parentCategoryId with
      | none => c.parentCategoryId
      | some v => v }

/-- `categoriesRouter.create` (`src/server/trpc/routers/categories.ts`
lines 29-53): validate the parent when given (exists, same type, not
archived), then insert a fresh row with `archived = false`.  The
database's `defaultRandom()` key is the `newId` parameter; freshness is
a hypothesis where needed. -/
def createCategory (s : List Category) (input : CreateCategoryInput) (newId : ℕ) :
    Except String (List Category) :=
  if !validCreateCategory input then .error "Invalid input" else
  match input.parentCategoryId with
  | some pid =>
    match s.find? (fun c => c.id == pid) with
    | none => .error "Parent category not found"
    | some parent =>
      if parent.type ≠ input.type then
        .error "Parent category must have the same type (income/expense)"
      else if parent.archived then
        .error "Cannot create subcategory under an archived category"
      else
        .ok (s ++ [⟨newId, input.name, input.type, input.color, input.icon,
          input.parentCategoryId, false⟩])
  | none =>
    .ok (s ++ [⟨newId, input.name, input.type, input.color, input.icon, none, false⟩])

/-- `categoriesRouter.update` (`src/server/trpc/routers/categories.ts`
lines 104-159): not-found check, then — only when `parentCategoryId` is
supplied and non-null — parent existence, same-type, not-archived and
non-self checks, then apply the partial update. -/
def updateCategory (s : List Category) (uid : ℕ) (d : UpdateCategoryInput) :
    Except String (List Category) :=
  if !validUpdateCategory d then .error "Invalid input" else
  match s.find? (fun c => c.id == uid) with
  | none => .error "Category not found"
  | some existing =>
    match d.parentCategoryId with
    | some (some pid) =>
      match s.find? (fun c => c.id == pid) with
      | none => .error "Parent category not found"
      | some parent =>
        if parent.type ≠ existing.type then
          .error "Parent category must have the same type (income/expense)"
        else if parent.archived then
          .error "Cannot set archived category as parent"
        else if parent.id == uid then
          .error "Category cannot be its own parent"
        else
          .ok (s.map fun c => if c.id == uid then applyCategoryUpdate c d else c)
    | _ => .ok (s.map fun c => if c.id == uid then applyCategoryUpdate c d else c)

/-- `categoriesRouter.archive` (`src/server/trpc/routers/categories.ts`
lines 166-178): set `archived := true` on the row, not-found error
otherwise; no check for referencing child categories. -/
def archiveCategory (s : List Category) (cid : ℕ) : Except String (List Category) :=
  if s.any (fun c => c.id == cid) then
    .ok (s.map fun c => if c.id == cid then { c with archived := true } else c)
  else .error "Category not found"

/-- `categoriesRouter.unarchive` (`src/server/trpc/routers/categories.ts`
lines 183-195). -/
def unarchiveCategory (s : List Category) (cid : ℕ) : Except String (List Category) :=
  if s.any (fun c => c.id == cid) then
    .ok (s.map fun c => if c.id == cid then { c with archived := false } else c)
  else .error "Category not found"

/-- Category table states reachable from the empty table through the
four category mutations, with database-generated keys fresh at insert
time. -/
inductive CategoryReachable : List Category → Prop where
  | init : CategoryReachable []
  | create {s s' : List Category} {input : CreateCategoryInput} {newId : ℕ} :
      CategoryReachable s → (∀ c ∈ s, c.id ≠ newId) →
      createCategory s input newId = .ok s' → CategoryReachable s'
  | update {s s' : List Category} {uid : ℕ} {d : UpdateCategoryInput} :
      CategoryReachable s → updateCategory s uid d = .ok s' → CategoryReachable s'
  | archive {s s' : List Category} {cid : ℕ} :
      CategoryReachable s → archiveCategory s cid = .ok s' → CategoryReachable s'
  | unarchive {s s' : List Category} {cid : ℕ} :
      CategoryReachable s → unarchiveCategory s cid = .ok s' → CategoryReachable s'

/-- The parent-link invariant of the claim: every present
`parentCategoryId` refers to an existing category of the same type,
not archived, and distinct from the referrer. -/
def ParentActiveInv (s : List Category) : Prop :=
  ∀ c ∈ s, ∀ pid, c.parentCategoryId = some pid →
    ∃ p ∈ s, p.id = pid ∧ p.type = c.type ∧ pid ≠ c.id ∧ p.archived = false

/-- The parent-link invariant without the not-archived conjunct: what
the code actually maintains in every reachable state. -/
def ParentLinkInv (s : List Category) : Prop :=
  ∀ c ∈ s, ∀ pid, c.parentCategoryId = some pid →
    ∃ p ∈ s, p.id = pid ∧ p.type = c.type ∧ pid ≠ c.id

instance (s : List Category) : Decidable (ParentActiveInv s) := by
  unfold ParentActiveInv
  infer_instance

instance (s : List Category) : Decidable (ParentLinkInv s) := by
  unfold ParentLinkInv
  infer_instance

theorem applyCategoryUpdate_id (c : Category) (d : UpdateCategoryInput) :
    (applyCategoryUpdate c d).id = c.id := rfl

theorem applyCategoryUpdate_type (c : Category) (d : UpdateCategoryInput) :
    (applyCategoryUpdate c d).type = c.type := rfl

theorem eq_of_mem_of_id_nodup {s : List Category} (hnd : (s.map Category.id).Nodup)
    {a b : Category} (ha : a ∈ s) (hb : b ∈ s) (hid : a.id = b.id) : a = b :=
  List.inj_on_of_nodup_map hnd ha hb hid

theorem nodup_ids_map {s : List Category} (hnd : (s.map Category.id).Nodup)
    (f : Category → Category) (hid : ∀ c, (f c).id = c.id) :
    ((s.map f).map Category.id).Nodup := by
  rw [List.map_map]
  have heq : s.map (Category.id ∘ f) = s.map Category.id :=
    List.map_congr_left (fun c _ => hid c)
  rw [heq]
  exact hnd

theorem parentLinkInv_map {s : List Category} (inv : ParentLinkInv s)
    (f : Category → Category) (hid : ∀ c, (f c).id = c.id)
    (htype : ∀ c, (f c).type = c.type)
    (hpar : ∀ c, (f c).parentCategoryId = c.parentCategoryId) :
    ParentLinkInv (s.map f) := by
  intro c' hc' pid hp
  obtain ⟨c, hc, rfl⟩ := List.mem_map.mp hc'
  rw [hpar] at hp
  obtain ⟨p, hpmem, hpid, hptype, hpne⟩ := inv c hc pid hp
  refine ⟨f p, List.mem_map_of_mem f hpmem, ?_, ?_, ?_⟩
  · rw [hid]
    exact hpid
  · rw [htype, htype]
    exact hptype
  · rw [hid]
    exact hpne
theorem categoryInv_create {s s' : List Category} {input : CreateCategoryInput} {newId : ℕ}
    (hnd : (s.map Category.id).Nodup) (inv : ParentLinkInv s)
    (hfresh : ∀ c ∈ s, c.id ≠ newId)
    (hok : createCategory s input newId = .ok s') :
    (s'.map Category.id).Nodup ∧ ParentLinkInv s' := by
  have hnodup : ∀ cat : Category, cat.id = newId →
      ((s ++ [cat]).map Category.id).Nodup := by
    intro cat hcat
    rw [List.map_append]
    rw [List.nodup_append]
    refine ⟨hnd, by simp, ?_⟩
    intro x hx
    obtain ⟨c, hc, rfl⟩ := List.mem_map.mp hx
    simp only [List.map_cons, List.map_nil, List.mem_singleton]
    rw [hcat]
    exact hfresh c hc
  unfold createCategory at hok
  split at hok
  · exact Except.noConfusion hok
  split at hok
  · -- parent = some pid
    rename_i pid hpin
    split at hok
    · exact Except.noConfusion hok
    rename_i parent hfind
    split at hok
    · exact Except.noConfusion hok
    split at hok
    · exact Except.noConfusion hok
    rename_i htype harch
    injection hok with hok
    subst hok
    have hpmem : parent ∈ s := List.mem_of_find?_eq_some hfind
    have hpid : parent.id = pid := by simpa using List.find?_some hfind
    have htype' : parent.type = input.type := by
      by_contra hcon
      exact htype hcon
    constructor
    · exact hnodup _ rfl
    · intro c hc pid' hp
      rcases List.mem_append.mp hc with hcs | hcnew
      · obtain ⟨p, hpm, h1, h2, h3⟩ := inv c hcs pid' hp
        exact ⟨p, List.mem_append_left _ hpm, h1, h2, h3⟩
      · rw [List.mem_singleton] at hcnew
        subst hcnew
        simp only [hpin] at hp
        injection hp with hp
        subst hp
        refine ⟨parent, List.mem_append_left _ hpmem, hpid, htype', ?_⟩
        show pid ≠ newId
        rw [← hpid]
        exact hfresh parent hpmem
  · -- parent = none
    rename_i hpin
    injection hok with hok
    subst hok
    constructor
    · exact hnodup _ rfl
    · intro c hc pid' hp
      rcases List.mem_append.mp hc with hcs | hcnew
      · obtain ⟨p, hpm, h1, h2, h3⟩ := inv c hcs pid' hp
        exact ⟨p, List.mem_append_left _ hpm, h1, h2, h3⟩
      · rw [List.mem_singleton] at hcnew
        subst hcnew
        exact absurd hp (by simp)
theorem applyCategoryUpdate_parent_some (c : Category) (d : UpdateCategoryInput)
    {v : Option ℕ} (h : d.parentCategoryId = some v) :
    (applyCategoryUpdate c d).parentCategoryId = v := by
  unfold applyCategoryUpdate
  rw [h]

theorem applyCategoryUpdate_parent_none (c : Category) (d : UpdateCategoryInput)
    (h : d.parentCategoryId = none) :
    (applyCategoryUpdate c d).parentCategoryId = c.parentCategoryId := by
  unfold applyCategoryUpdate
  rw [h]

theorem categoryInv_update {s s' : List Category} {uid : ℕ} {d : UpdateCategoryInput}
    (hnd : (s.map Category.id).Nodup) (inv : ParentLinkInv s)
    (hok : updateCategory s uid d = .ok s') :
    (s'.map Category.id).Nodup ∧ ParentLinkInv s' := by
  have hfid : ∀ c : Category,
      ((fun c => if c.id == uid then applyCategoryUpdate c d else c) c).id = c.id := by
    intro c
    by_cases h : c.id == uid
    · simp [h, applyCategoryUpdate_id]
    · simp [h]
  have hftype : ∀ c : Category,
      ((fun c => if c.id == uid then applyCategoryUpdate c d else c) c).type = c.type := by
    intro c
    by_cases h : c.id == uid
    · simp [h, applyCategoryUpdate_type]
    · simp [h]
  unfold updateCategory at hok
  split at hok
  · exact Except.noConfusion hok
  split at hok
  · exact Except.noConfusion hok
  rename_i existing hexist
  have hexmem : existing ∈ s := List.mem_of_find?_eq_some hexist
  have hexid : existing.id = uid := by simpa using List.find?_some hexist
  split at hok
  · -- d.parentCategoryId = some (some pid)
    rename_i pid hpin
    split at hok
    · exact Except.noConfusion hok
    rename_i parent hfind
    split at hok
    · exact Except.noConfusion hok
    split at hok
    · exact Except.noConfusion hok
    split at hok
    · exact Except.noConfusion hok
    rename_i htype harch hself
    injection hok with hok
    subst hok
    have hpmem : parent ∈ s := List.mem_of_find?_eq_some hfind
    have hpid : parent.id = pid := by simpa using List.find?_some hfind
    have htype' : parent.type = existing.type := by
      by_contra hcon
      exact htype hcon
    have hself' : parent.id ≠ uid := by
      intro hcon
      exact hself (by simp [hcon])
    refine ⟨nodup_ids_map hnd _ hfid, ?_⟩
    intro c' hc' pid' hp
    obtain ⟨c, hc, rfl⟩ := List.mem_map.mp hc'
    by_cases hcuid : c.id == uid
    · -- the updated row
      have hceq : c = existing :=
        eq_of_mem_of_id_nodup hnd hc hexmem (by rw [hexid]; simpa using hcuid)
      simp only [hcuid, if_true] at hp
      have hp' : (applyCategoryUpdate c d).parentCategoryId = some pid' := hp
      rw [applyCategoryUpdate_parent_some c d hpin] at hp'
      injection hp' with hp'
      subst hp'
      refine ⟨(fun c => if c.id == uid then applyCategoryUpdate c d else c) parent,
        List.mem_map_of_mem _ hpmem, ?_, ?_, ?_⟩
      · rw [hfid]
        exact hpid
      · rw [hftype, hftype]
        rw [htype', hceq]
      · rw [hfid]
        have hcid : c.id = uid := by simpa using hcuid
        rw [hcid, ← hpid]
        exact hself'
    · -- untouched rows
      have hfc : (if (c.id == uid) = true then applyCategoryUpdate c d else c) = c :=
        if_neg hcuid
      rw [hfc] at hp ⊢
      obtain ⟨p, hpm, h1, h2, h3⟩ := inv c hc pid' hp
      refine ⟨(fun c => if c.id == uid then applyCategoryUpdate c d else c) p,
        List.mem_map_of_mem _ hpm, ?_, ?_, h3⟩
      · rw [hfid]
        exact h1
      · rw [hftype]
        exact h2
  · -- d.parentCategoryId is none or an explicit null
    rename_i hnotpid
    injection hok with hok
    subst hok
    refine ⟨nodup_ids_map hnd _ hfid, ?_⟩
    intro c' hc' pid' hp
    obtain ⟨c, hc, rfl⟩ := List.mem_map.mp hc'
    by_cases hcuid : c.id == uid
    · simp only [hcuid, if_true] at hp
      have hp' : (applyCategoryUpdate c d).parentCategoryId = some pid' := hp
      rcases hd : d.parentCategoryId with _ | opt
      · -- field absent: parent unchanged
        rw [applyCategoryUpdate_parent_none c d hd] at hp'
        obtain ⟨p, hpm, h1, h2, h3⟩ := inv c hc pid' hp'
        refine ⟨(fun c => if c.id == uid then applyCategoryUpdate c d else c) p,
          List.mem_map_of_mem _ hpm, ?_, ?_, ?_⟩
        · rw [hfid]
          exact h1
        · rw [hftype]
          rw [show ((fun c => if c.id == uid then applyCategoryUpdate c d else c) c).type
              = c.type from hftype c]
          exact h2
        · rw [show ((fun c => if c.id == uid then applyCategoryUpdate c d else c) c).id
              = c.id from hfid c]
          exact h3
      · -- explicit null (some none): the some-some case is excluded by this arm
        rcases opt with _ | pid2
        · rw [applyCategoryUpdate_parent_some c d hd] at hp'
          exact Option.noConfusion hp'
        · exact absurd hd (by intro hcon; exact hnotpid pid2 hcon)
    · have hfc : (if (c.id == uid) = true then applyCategoryUpdate c d else c) = c :=
        if_neg hcuid
      rw [hfc] at hp ⊢
      obtain ⟨p, hpm, h1, h2, h3⟩ := inv c hc pid' hp
      refine ⟨(fun c => if c.id == uid then applyCategoryUpdate c d else c) p,
        List.mem_map_of_mem _ hpm, ?_, ?_, h3⟩
      · rw [hfid]
        exact h1
      · rw [hftype]
        exact h2

theorem categoryInv {s : List Category} (h : CategoryReachable s) :
    (s.map Category.id).Nodup ∧ ParentLinkInv s := by
  induction h with
  | init =>
    constructor
    · simp
    · intro c hc
      simp at hc
  | create hr hfresh hok ih =>
    exact categoryInv_create ih.1 ih.2 hfresh hok
  | update hr hok ih =>
    exact categoryInv_update ih.1 ih.2 hok
  | archive hr hok ih =>
    rename_i s0 s' cid
    unfold archiveCategory at hok
    split at hok
    · injection hok with hok
      subst hok
      have hid : ∀ c : Category,
          ((fun c => if c.id == cid then { c with archived := true } else c) c).id = c.id := by
        intro c
        by_cases h : c.id == cid <;> simp [h]
      refine ⟨nodup_ids_map ih.1 _ hid, parentLinkInv_map ih.2 _ hid ?_ ?_⟩
      · intro c
        by_cases h : c.id == cid <;> simp [h]
      · intro c
        by_cases h : c.id == cid <;> simp [h]
    · exact Except.noConfusion hok
  | unarchive hr hok ih =>
    rename_i s0 s' cid
    unfold unarchiveCategory at hok
    split at hok
    · injection hok with hok
      subst hok
      have hid : ∀ c : Category,
          ((fun c => if c.id == cid then { c with archived := false } else c) c).id = c.id := by
        intro c
        by_cases h : c.id == cid <;> simp [h]
      refine ⟨nodup_ids_map ih.1 _ hid, parentLinkInv_map ih.2 _ hid ?_ ?_⟩
      · intro c
        by_cases h : c.id == cid <;> simp [h]
      · intro c
        by_cases h : c.id == cid <;> simp [h]
    · exact Except.noConfusion hok

/-- Expense category "A", the parent in the C9 scenario. -/
def c9CatA : Category := ⟨1, "A", CategoryType.Expense, "#000000", "home", none, false⟩

/-- Expense category "B" whose `parentCategoryId` references "A". -/
def c9CatB : Category := ⟨2, "B", CategoryType.Expense, "#000000", "car", some 1, false⟩

/-- The category table after creating "A", creating "B" under "A", and
archiving "A": "B" now references an archived parent. -/
def c9Final : List Category :=
  [⟨1, "A", CategoryType.Expense, "#000000", "home", none, true⟩, c9CatB]

/-- C9 counterexample: the state obtained by `create "A"`,
`create "B" (parent := "A")`, `archive "A"` is reachable, yet category
"B"'s `parentCategoryId` refers to an archived category —
`categoriesRouter.archive` never checks for referencing children, so
the claimed invariant fails. -/
theorem category_parent_archivable :
    CategoryReachable c9Final ∧ ¬ ParentActiveInv c9Final := by
  constructor
  · have e1 : createCategory [] ⟨"A", CategoryType.Expense, "#000000", "home", none⟩ 1
        = .ok [c9CatA] := by decide
    have r1 := CategoryReachable.create CategoryReachable.init
      (by intro c hc; simp at hc) e1
    have e2 : createCategory [c9CatA]
        ⟨"B", CategoryType.Expense, "#000000", "car", some 1⟩ 2
        = .ok [c9CatA, c9CatB] := by decide
    have r2 := CategoryReachable.create r1 (by decide) e2
    have e3 : archiveCategory [c9CatA, c9CatB] 1 = .ok c9Final := by decide
    exact CategoryReachable.archive r2 e3
  · decide

/-- C9 (amended): in every state reachable by category create, update,
archive and unarchive, every present `parentCategoryId` refers to an
existing category of the same type whose id differs from the
referrer's own id — but that parent may itself be archived, because
`archive` does not guard against referencing children. -/
theorem category_parent_link_invariant :
    ∀ s : List Category, CategoryReachable s → ParentLinkInv s :=
  fun _ h => (categoryInv h).2

theorem category_parent_link_invariant_witness : ParentLinkInv c9Final :=
  category_parent_link_invariant c9Final (by
    have e1 : createCategory [] ⟨"A", CategoryType.Expense, "#000000", "home", none⟩ 1
        = .ok [c9CatA] := by decide
    have r1 := CategoryReachable.create CategoryReachable.init
      (by intro c hc; simp at hc) e1
    have e2 : createCategory [c9CatA]
        ⟨"B", CategoryType.Expense, "#000000", "car", some 1⟩ 2
        = .ok [c9CatA, c9CatB] := by decide
    have r2 := CategoryReachable.create r1 (by decide) e2
    have e3 : archiveCategory [c9CatA, c9CatB] 1 = .ok c9Final := by decide
    exact CategoryReachable.archive r2 e3)

/-- C4: `categoriesRouter.create` performs no uniqueness check and the
schema/migrations declare no unique index on `(name, type)`
(`src/drizzle/0001_free_skullbuster.sql` has unique constraints only on
`accounts.name`, `currencies.code`, `payees.name`).  Creating
`("groceries", Expense)` when `("Groceries", Expense)` already exists
succeeds instead of failing with a `ConflictError`, leaving two
non-deleted categories with case-insensitively equal names and the same
type. -/
theorem categories_create_no_conflict :
    createCategory [] ⟨"Groceries", CategoryType.Expense, "#10B981", "shopping-cart", none⟩ 1
      = .ok [⟨1, "Groceries", CategoryType.Expense, "#10B981", "shopping-cart", none, false⟩] ∧
    createCategory
        [⟨1, "Groceries", CategoryType.Expense, "#10B981", "shopping-cart", none, false⟩]
        ⟨"groceries", CategoryType.Expense, "#000000", "cart", none⟩ 2
      = .ok [⟨1, "Groceries", CategoryType.Expense, "#10B981", "shopping-cart", none, false⟩,
          ⟨2, "groceries", CategoryType.Expense, "#000000", "cart", none, false⟩] ∧
    "Groceries".data.map Char.toLower = "groceries".data.map Char.toLower := by
  refine ⟨by decide, by decide, by decide⟩

/-- `theme` enum from `src/server/db/schema.ts`. -/
inductive Theme where
  | light
  | dark
  | auto
deriving DecidableEq

/-- A `currencies` row (`src/server/db/schema.ts` lines 95-114);
timestamps omitted, `exchangeRate` as an exact rational. -/
structure Currency where
  id : ℕ
  code : String
  symbol : String
  name : String
  exchangeRate : ℚ
  archived : Bool
deriving DecidableEq

/-- `account_type` enum from `src/server/db/schema.ts`. -/
inductive AccountType where
  | Bank
  | CreditCard
  | Wallet
deriving DecidableEq

/-- An `accounts` row (`src/server/db/schema.ts` lines 195-211). -/
structure Account where
  id : ℕ
  name : String
  type : AccountType
  currencyId : ℕ
  balance : ℤ
  archived : Bool
deriving DecidableEq

/-- A `settings` row (`src/server/db/schema.ts` lines 130-144). -/
structure SettingsRecord where
  id : ℕ
  defaultCurrencyId : ℕ
  theme : Theme
  aiEnabled : Bool
deriving DecidableEq

/-- The persistent store visible to the currencies and settings
routers: the `currencies`, `accounts` and `settings` tables as ordered
row lists (`select ... limit 1` reads the first matching row). -/
structure FinState where
  currencies : List Currency
  accounts : List Account
  settings : List SettingsRecord
deriving DecidableEq

/-- `currenciesRouter.archive` (`src/unnamed/part_001` lines 191-205):
`update currencies set archived = true where id = input.id returning`;
the only failure is not-found.  No referencing-account check and no
Settings-default check appear anywhere in the procedure. -/
def currencyArchive (st : FinState) (cid : ℕ) : Except String FinState :=
  if st.currencies.any (fun c => c.id == cid) then
    .ok { st with
      currencies := st.currencies.map fun c =>
        if c.id == cid then { c with archived := true } else c }
  else .error "Currency not found"

/-- `settingsRouter.get` (`src/server/trpc/routers/settings.ts` lines
23-56): return the first settings row if any; otherwise look up the
first currency with `code = 'EUR'` — with no filter on `archived` — and
either fail (no EUR) or insert a settings row with that currency as
default, `theme = 'light'`, `aiEnabled = true`.  `newId` models the
generated key of the inserted row. -/
def settingsGet (st : FinState) (newId : ℕ) : Except String (FinState × SettingsRecord) :=
  match st.settings.head? with
  | some existing => .ok (st, existing)
  | none =>
    match st.currencies.find? (fun c => c.code == "EUR") with
    | none =>
      .error "Cannot create default settings: EUR currency not found. Please seed database first."
    | some eur =>
      let ns : SettingsRecord := ⟨newId, eur.id, Theme.light, true⟩
      .ok ({ st with settings := st.settings ++ [ns] }, ns)

/-- The state for the C1 scenario: one non-archived currency that is
both referenced by a non-archived account and the Settings default. -/
def c1State : FinState :=
  { currencies := [⟨1, "EUR", "€", "Euro", 1, false⟩]
    accounts := [⟨10, "Checking", AccountType.Bank, 1, 0, false⟩]
    settings := [⟨100, 1, Theme.light, true⟩] }

/-- C1: archiving a currency referenced by a non-archived account and
set as the Settings default succeeds and flips `archived` to `true`;
`currenciesRouter.archive` raises no `InvalidStateError` for any
reference, contradicting the repository's own API contract
(`src/specs/002-master-tables/contracts/currencies.ts` documents
"Currency has active accounts" / "Currency is default in settings"
errors). -/
theorem currency_archive_unguarded :
    (c1State.accounts.any fun a => a.currencyId == 1 && !a.archived) = true ∧
    (c1State.settings.head?.map (fun r => r.defaultCurrencyId)) = some 1 ∧
    currencyArchive c1State 1 =
      .ok { c1State with currencies := [⟨1, "EUR", "€", "Euro", 1, true⟩] } := by
  refine ⟨by decide, by decide, by decide⟩

/-- The state for the C3 counterexample: one non-archived `USD`
currency, no settings row. -/
def c3State : FinState :=
  { currencies := [⟨2, "USD", "$", "US Dollar", 1, false⟩]
    accounts := []
    settings := [] }

/-- C3 counterexample: with a non-archived currency (`USD`) available
but no `EUR`, `settingsRouter.get` fails instead of initializing the
Settings row with any available non-archived currency as the claim
states. -/
theorem settings_get_requires_eur :
    (c3State.currencies.any fun c => !c.archived) = true ∧
    settingsGet c3State 5 =
      .error "Cannot create default settings: EUR currency not found. Please seed database first." := by
  refine ⟨by decide, by decide⟩

/-- C3 (amended): when a Settings row exists, `settingsRouter.get`
returns it; when none exists it creates one whose `defaultCurrencyId`
is the id of the first currency whose code is `"EUR"` — whether or not
that currency is archived — with `theme = light` and
`aiEnabled = true`; it fails exactly when no `EUR` currency exists,
even if other non-archived currencies are available. -/
theorem settingsGet_spec (st : FinState) (nid : ℕ) :
    (∀ r, st.settings.head? = some r → settingsGet st nid = .ok (st, r)) ∧
    (st.settings = [] →
      ((∃ c ∈ st.currencies, c.code = "EUR") →
        ∃ stOut r, settingsGet st nid = .ok (stOut, r) ∧
          (∃ c ∈ st.currencies, c.code = "EUR" ∧ r.defaultCurrencyId = c.id) ∧
          r.theme = Theme.light ∧ r.aiEnabled = true ∧ stOut.settings = [r]) ∧
      ((∀ c ∈ st.currencies, c.code ≠ "EUR") →
        settingsGet st nid =
          .error "Cannot create default settings: EUR currency not found. Please seed database first.")) := by
  constructor
  · intro r hr
    unfold settingsGet
    rw [hr]
  · intro hs
    have hh : st.settings.head? = none := by
      rw [hs]
      rfl
    constructor
    · rintro ⟨c, hc, hcode⟩
      rcases hfind : st.currencies.find? (fun c => c.code == "EUR") with _ | eur
      · exfalso
        have hne := List.find?_eq_none.mp hfind c hc
        simp [hcode] at hne
      · have heurmem : eur ∈ st.currencies := List.mem_of_find?_eq_some hfind
        have heurcode : eur.code = "EUR" := by simpa using List.find?_some hfind
        refine ⟨{ st with settings := st.settings ++ [⟨nid, eur.id, Theme.light, true⟩] },
          ⟨nid, eur.id, Theme.light, true⟩, ?_, ⟨eur, heurmem, heurcode, rfl⟩, rfl, rfl, ?_⟩
        · unfold settingsGet
          rw [hh, hfind]
        · rw [hs]
          rfl
    · intro hno
      rcases hfind : st.currencies.find? (fun c => c.code == "EUR") with _ | eur
      · unfold settingsGet
        rw [hh, hfind]
      · exfalso
        have heurmem := List.mem_of_find?_eq_some hfind
        have heurcode : eur.code = "EUR" := by simpa using List.find?_some hfind
        exact hno eur heurmem heurcode

/-- A state with exactly one (non-archived) `EUR` currency and no
settings row, used to exercise `settingsGet_spec`. -/
def c3EurState : FinState :=
  { currencies := [⟨3, "EUR", "€", "Euro", 1, false⟩]
    accounts := []
    settings := [] }

theorem settingsGet_spec_witness :
    ∃ stOut r, settingsGet c3EurState 7 = .ok (stOut, r) ∧
      (∃ c ∈ c3EurState.currencies, c.code = "EUR" ∧ r.defaultCurrencyId = c.id) ∧
      r.theme = Theme.light ∧ r.aiEnabled = true ∧ stOut.settings = [r] :=
  ((settingsGet_spec c3EurState 7).2 rfl).1
    ⟨⟨3, "EUR", "€", "Euro", 1, false⟩, by decide, rfl⟩

/-- The procedures exposed by `payeesRouter`
(`src/server/trpc/routers/payees.ts` lines 23-190), in source order. -/
def payeesRouterProcedures : List String :=
  ["create", "list", "getById", "update", "archive", "unarchive"]

/-- The procedures promised by the repository's payees API contract
(`src/specs/002-master-tables/contracts/payees.ts`), in source order. -/
def payeesContractProcedures : List String :=
  ["create", "list", "getById", "search", "update", "delete", "unarchive"]

/-- C2: the payees router exposes no `delete` procedure at all — the
conditional hard/soft delete documented in the repository's payees API
contract (and in the claim) is absent from the implementation, which
offers only an unconditional `archive`. -/
theorem payees_delete_missing :
    "delete" ∉ payeesRouterProcedures ∧
    "delete" ∈ payeesContractProcedures ∧
    "archive" ∈ payeesRouterProcedures := by
  refine ⟨by decide, by decide, by decide⟩
